import Mathlib

/-!
Verification of SelectionOverlay (ui/overlay/selectionOverlay.go).

A shallow embedding of the selection overlay: the record, its constructor, the
setters, the key handler, the selected-option query and the renderer.

Conventions of the embedding.

* Go `int` is `Int`.  The handler only increments an index that is below
  `len(Options) - 1` and only decrements one that is above `0`, so no machine
  overflow can occur and unbounded integers are exact.
* A Go slice read `xs[i]` is `goIndex xs i`, which is `none` exactly when the Go
  runtime raises "index out of range".
* The callback `OnSubmit func(selected string)` is a Go closure.  Besides acting
  on the state of the host it may write the overlay it is attached to, directly or
  through the methods of the overlay (the key handler included), and it may fail.
  The overlay therefore holds the name `c : C` of its callback (`none` is the nil
  function value), and a table `run : Callbacks C W` gives the meaning of every
  name: from the argument, the overlay and the host state `W` at the moment of
  the call to the overlay and the host state the call leaves, with a flag telling
  whether the call returned.  A call of a callback is taken to end, by returning
  or by failing.  The handler neither restores nor checks anything after the
  call.
* A key message is seen through the two observations the handler makes of it:
  `msg.Type` and `msg.String()`.
* The styles of the renderer are arbitrary functions from text to text; `Render`
  is in state-passing form, so that what it leaves of the overlay can be stated.
-/

namespace SelectionOverlay

/-- The key types the handler distinguishes.  `KeyRunes` is the type of printable
keys; every key type the handler does not name is `KeyOther`. -/
inductive KeyType where
  | KeyUp
  | KeyDown
  | KeyEnter
  | KeyEsc
  | KeyRunes
  | KeyOther (code : Int)
  deriving DecidableEq, Repr

/-- A key message, as the handler observes it: `Typ` is `msg.Type` and `Str` is
the value of `msg.String()`. -/
structure KeyMsg where
  Typ : KeyType
  Str : String
  deriving DecidableEq, Repr

/-- The record `SelectionOverlay` of the source; `C` is the type of the names of
the callbacks. -/
structure Overlay (C : Type) where
  Title : String
  Options : List String
  SelectedIndex : Int
  Submitted : Bool
  Canceled : Bool
  OnSubmit : Option C
  width : Int
  height : Int

/-- What a call of a callback leaves behind: the overlay, the host state, and
whether the call returned (`false`: it failed). -/
structure CallEnd (C W : Type) where
  state : Overlay C
  world : W
  returns : Bool

/-- The meaning of the callbacks: the callback named `c`, called with the
argument `selected` while the overlay is `s` and the host state is `w`, ends as
`run c selected s w`. -/
abbrev Callbacks (C W : Type) : Type := C → String → Overlay C → W → CallEnd C W

/-- How a call of the handler ends: it returns its boolean, the Go runtime stops
it with "index out of range", or the callback it invoked failed. -/
inductive Outcome where
  | returned (close : Bool)
  | indexOutOfRange
  | callbackFailed
  deriving DecidableEq, Repr

/-- What a call of `HandleKeyPress` leaves behind: the overlay, the host state,
the arguments of the callback invocations the handler made during the call (in
order), and how the call ended. -/
structure Step (C W : Type) where
  state : Overlay C
  world : W
  calls : List String
  outcome : Outcome

/-- The Go slice read `xs[i]`: `none` is the runtime failure "index out of range". -/
def goIndex (xs : List String) (i : Int) : Option String :=
  if 0 ≤ i ∧ i < (xs.length : Int) then xs[i.toNat]? else none

/-- `NewSelectionOverlay(title, options)`; the fields the literal does not
mention take their zero values. -/
def NewSelectionOverlay {C : Type} (title : String) (options : List String) : Overlay C :=
  { Title := title
    Options := options
    SelectedIndex := 0
    Submitted := false
    Canceled := false
    OnSubmit := none
    width := 0
    height := 0 }

/-- `SetOnSubmit(onSubmit)`; `none` is the nil function. -/
def SetOnSubmit {C : Type} (s : Overlay C) (onSubmit : Option C) : Overlay C :=
  { s with OnSubmit := onSubmit }

/-- `HandleKeyPress(msg)`, started on overlay `s` and host state `w`.  The
statement `s.Submitted = true` precedes the slice read and the call of the
callback: a call that the runtime stops leaves the flag set, and the callback
finds it set.  After the callback the handler only returns true, so the call
leaves what the callback left. -/
def HandleKeyPress {C W : Type} (run : Callbacks C W) (s : Overlay C) (w : W) (msg : KeyMsg) :
    Step C W :=
  match msg.Typ with
  | .KeyUp =>
    if s.SelectedIndex > 0 then
      ⟨{ s with SelectedIndex := s.SelectedIndex - 1 }, w, [], .returned false⟩
    else ⟨s, w, [], .returned false⟩
  | .KeyDown =>
    if s.SelectedIndex < (s.Options.length : Int) - 1 then
      ⟨{ s with SelectedIndex := s.SelectedIndex + 1 }, w, [], .returned false⟩
    else ⟨s, w, [], .returned false⟩
  | .KeyEnter =>
    let s1 : Overlay C := { s with Submitted := true }
    match s1.OnSubmit with
    | none => ⟨s1, w, [], .returned true⟩
    | some c =>
      match goIndex s1.Options s1.SelectedIndex with
      | none => ⟨s1, w, [], .indexOutOfRange⟩
      | some selected =>
        let e := run c selected s1 w
        if e.returns then ⟨e.state, e.world, [selected], .returned true⟩
        else ⟨e.state, e.world, [selected], .callbackFailed⟩
  | .KeyEsc => ⟨{ s with Canceled := true }, w, [], .returned true⟩
  | _ =>
    if msg.Str = "j" then
      if s.SelectedIndex < (s.Options.length : Int) - 1 then
        ⟨{ s with SelectedIndex := s.SelectedIndex + 1 }, w, [], .returned false⟩
      else ⟨s, w, [], .returned false⟩
    else if msg.Str = "k" then
      if s.SelectedIndex > 0 then
        ⟨{ s with SelectedIndex := s.SelectedIndex - 1 }, w, [], .returned false⟩
      else ⟨s, w, [], .returned false⟩
    else ⟨s, w, [], .returned false⟩

/-- `GetSelectedOption()`; `none` would be the runtime failure of the slice read. -/
def GetSelectedOption {C : Type} (s : Overlay C) : Option String :=
  if s.SelectedIndex ≥ 0 ∧ s.SelectedIndex < (s.Options.length : Int) then
    goIndex s.Options s.SelectedIndex
  else some ""

/-- `IsSubmitted()`. -/
def IsSubmitted {C : Type} (s : Overlay C) : Bool := s.Submitted

/-- `IsCanceled()`. -/
def IsCanceled {C : Type} (s : Overlay C) : Bool := s.Canceled

/-- A sequence of key messages delivered one after the other, each call starting
from what the previous one left.  The result lists what every call left behind,
in order.  A call that does not return ends the delivery. -/
def deliver {C W : Type} (run : Callbacks C W) (s : Overlay C) (w : W) :
    List KeyMsg → List (Step C W)
  | [] => []
  | msg :: rest =>
    let r := HandleKeyPress run s w msg
    match r.outcome with
    | .returned _ => r :: deliver run r.state r.world rest
    | _ => [r]

/-- The overlay and the host state after a sequence of key messages: what the
last call made left, or the starting pair when no call was made.  As in
`deliver`, a call that does not return ends the delivery. -/
def runKeys {C W : Type} (run : Callbacks C W) (s : Overlay C) (w : W) :
    List KeyMsg → Overlay C × W
  | [] => (s, w)
  | msg :: rest =>
    let r := HandleKeyPress run s w msg
    match r.outcome with
    | .returned _ => runKeys run r.state r.world rest
    | _ => (r.state, r.world)

/-- A callback that leaves the overlay as it found it, whatever it does to the
host and whether or not it returns. -/
def leavesOverlay {C W : Type} (run : Callbacks C W) (c : C) : Prop :=
  ∀ (selected : String) (s : Overlay C) (w : W), (run c selected s w).state = s

/-- A callback that returns from every call. -/
def alwaysReturns {C W : Type} (run : Callbacks C W) (c : C) : Prop :=
  ∀ (selected : String) (s : Overlay C) (w : W), (run c selected s w).returns = true

/-- The five styles that `Render` builds, each seen through its `Render` method,
a function from text to text: the styling engine is outside the overlay. -/
structure Styles where
  style : String → String
  titleStyle : String → String
  optionStyle : String → String
  selectedOptionStyle : String → String
  hintStyle : String → String

/-- The key-binding hint, the string literal of `Render`. -/
def hintText : String := "↑↓/jk: navigate • enter: select • esc: cancel"

/-- The loop `for i, option := range s.Options` of `Render`, entered at position
`i` with the content built so far. -/
def renderLoop (st : Styles) (selectedIndex : Int) : List String → Int → String → String
  | [], _, content => content
  | option :: rest, i, content =>
    let (pfx, optStyle) :=
      if i = selectedIndex then ("> ", st.selectedOptionStyle) else ("  ", st.optionStyle)
    renderLoop st selectedIndex rest (i + 1) (content ++ (pfx ++ optStyle option ++ "\n"))

/-- The value of the variable `content` when `Render` hands it to the border
style. -/
def renderContent {C : Type} (st : Styles) (s : Overlay C) : String :=
  let content := st.titleStyle s.Title ++ "\n"
  let content := renderLoop st s.SelectedIndex s.Options 0 content
  content ++ st.hintStyle hintText

/-- `Render()`, in state-passing form: the overlay the call leaves and the text it
returns.  The body only reads the receiver. -/
def Render {C : Type} (st : Styles) (s : Overlay C) : Overlay C × String :=
  (s, st.style (renderContent st s))

/-- `View()`, which returns `s.Render()`. -/
def View {C : Type} (st : Styles) (s : Overlay C) : Overlay C × String :=
  Render st s

/-- The marker of row `i`, in the words of the specification: the marker "> " on
the selected row, two blanks on the others. -/
def rowMarkerSpec (selectedIndex : Int) (i : Nat) : String :=
  if (i : Int) = selectedIndex then "> " else "  "

/-- The style of row `i`, in the words of the specification: the selected-row
style on the selected row, the normal style on the others. -/
def rowStyleSpec (st : Styles) (selectedIndex : Int) (i : Nat) : String → String :=
  if (i : Int) = selectedIndex then st.selectedOptionStyle else st.optionStyle

/-- The option lines, in the words of the specification: one line per option, in
list order, made of the marker, the styled option and a newline. -/
def optionLinesSpec {C : Type} (st : Styles) (s : Overlay C) : List String :=
  s.Options.enum.map fun io =>
    rowMarkerSpec s.SelectedIndex io.1 ++ rowStyleSpec st s.SelectedIndex io.1 io.2 ++ "\n"

/-- Lines put one after the other. -/
def joinLines : List String → String
  | [] => ""
  | l :: ls => l ++ joinLines ls

/-- The content inside the border, in the words of the specification: the styled
title and a newline, the option lines, the styled hint. -/
def contentSpec {C : Type} (st : Styles) (s : Overlay C) : String :=
  st.titleStyle s.Title ++ "\n" ++ joinLines (optionLinesSpec st s) ++ st.hintStyle hintText

/-- A move-down event: the Down arrow, or the printable key whose string is "j". -/
def isMoveDown (msg : KeyMsg) : Prop :=
  msg.Typ = .KeyDown ∨ (msg.Typ = .KeyRunes ∧ msg.Str = "j")

/-- A move-up event: the Up arrow, or the printable key whose string is "k". -/
def isMoveUp (msg : KeyMsg) : Prop :=
  msg.Typ = .KeyUp ∨ (msg.Typ = .KeyRunes ∧ msg.Str = "k")

/-- Styles that leave a visible trace of themselves, for concrete evaluation. -/
def plainStyles : Styles :=
  { style := fun c => "[" ++ c ++ "]"
    titleStyle := fun c => "T:" ++ c
    optionStyle := fun c => c
    selectedOptionStyle := fun c => "*" ++ c ++ "*"
    hintStyle := fun c => "H:" ++ c }

/-- The selection invariant: the index points into the option list. -/
def indexValid {C : Type} (s : Overlay C) : Prop :=
  0 ≤ s.SelectedIndex ∧ s.SelectedIndex < (s.Options.length : Int)

instance {C : Type} (s : Overlay C) : Decidable (indexValid s) := by
  unfold indexValid; infer_instance

/-- The names of three callbacks of a host whose state is a log of strings. -/
inductive DemoCallback where
  | log
  | reopen
  | widthToIndex
  deriving DecidableEq, Repr

/-- The three callbacks.  All append their argument to the log and return.  `log`
does nothing else; `reopen` also clears `Submitted` and `Canceled` of the
overlay; `widthToIndex` also copies the stored width into `SelectedIndex`. -/
def demoRun : Callbacks DemoCallback (List String)
  | .log, selected, s, w => ⟨s, w ++ [selected], true⟩
  | .reopen, selected, s, w =>
    ⟨{ s with Submitted := false, Canceled := false }, w ++ [selected], true⟩
  | .widthToIndex, selected, s, w =>
    ⟨{ s with SelectedIndex := s.width }, w ++ [selected], true⟩

/-- The overlay with options A, B, C, the cursor on C and the logging callback. -/
def abcOverlay : Overlay DemoCallback :=
  { Title := "Pick"
    Options := ["A", "B", "C"]
    SelectedIndex := 2
    Submitted := false
    Canceled := false
    OnSubmit := some .log
    width := 0
    height := 0 }

/-- The Enter key message. -/
def enterKey : KeyMsg := ⟨.KeyEnter, "enter"⟩

/-- The Esc key message. -/
def escKey : KeyMsg := ⟨.KeyEsc, "esc"⟩

/-- The Down arrow key message. -/
def downKey : KeyMsg := ⟨.KeyDown, "down"⟩

/-- The Up arrow key message. -/
def upKey : KeyMsg := ⟨.KeyUp, "up"⟩

/-- The printable key j. -/
def jKey : KeyMsg := ⟨.KeyRunes, "j"⟩

/-- The printable key k. -/
def kKey : KeyMsg := ⟨.KeyRunes, "k"⟩

/-- The printable key x, which the handler does not recognise. -/
def xKey : KeyMsg := ⟨.KeyRunes, "x"⟩

/-- An overlay in a state no run from the constructor reaches: two options, the
index past the end, no callback. -/
def strayOverlay : Overlay DemoCallback :=
  { Title := "Pick"
    Options := ["A", "B"]
    SelectedIndex := 5
    Submitted := false
    Canceled := false
    OnSubmit := none
    width := 0
    height := 0 }

/-- The overlay built for A, B, C with the logging callback, after one Enter:
submitted with the cursor on A, the host log holding A. -/
def submittedOverlay : Overlay DemoCallback :=
  (runKeys demoRun (SetOnSubmit (NewSelectionOverlay "Pick" ["A", "B", "C"]) (some .log)) []
    [enterKey]).1

/-- The overlay built for A, B, C with the callback `reopen` attached. -/
def reopenOverlay : Overlay DemoCallback :=
  SetOnSubmit (NewSelectionOverlay "Pick" ["A", "B", "C"]) (some .reopen)

theorem goIndex_of_valid (xs : List String) (i : Int)
    (h0 : 0 ≤ i) (h1 : i < (xs.length : Int)) :
    ∃ v, goIndex xs i = some v ∧ xs[i.toNat]? = some v := by
  have hlt : i.toNat < xs.length := by omega
  refine ⟨xs[i.toNat], ?_, ?_⟩
  · simp [goIndex, h0, h1, List.getElem?_eq_getElem hlt]
  · exact List.getElem?_eq_getElem hlt

theorem goIndex_nil (i : Int) : goIndex [] i = none := by
  simp [goIndex]

theorem HandleKeyPress_enter_callback {C W : Type} (run : Callbacks C W) (s : Overlay C) (w : W)
    (msg : KeyMsg) (c : C) (v : String) (hmsg : msg.Typ = .KeyEnter)
    (hcb : s.OnSubmit = some c) (hv : goIndex s.Options s.SelectedIndex = some v) :
    (HandleKeyPress run s w msg).state = (run c v { s with Submitted := true } w).state ∧
    (HandleKeyPress run s w msg).world = (run c v { s with Submitted := true } w).world ∧
    (HandleKeyPress run s w msg).calls = [v] ∧
    (HandleKeyPress run s w msg).outcome =
      (if (run c v { s with Submitted := true } w).returns then .returned true
        else .callbackFailed) := by
  obtain ⟨title, options, index, submitted, canceled, onSubmit, width, height⟩ := s
  simp only at hcb hv
  subst hcb
  simp only [HandleKeyPress, hmsg, hv]
  split <;> simp

theorem HandleKeyPress_indexValid {C W : Type} (run : Callbacks C W) (s : Overlay C) (w : W)
    (msg : KeyMsg) (h : indexValid s)
    (hq : ∀ c, s.OnSubmit = some c → leavesOverlay run c) :
    indexValid (HandleKeyPress run s w msg).state ∧
    (HandleKeyPress run s w msg).state.OnSubmit = s.OnSubmit ∧
    (HandleKeyPress run s w msg).outcome ≠ .indexOutOfRange ∧
    ((∀ c, s.OnSubmit = some c → alwaysReturns run c) →
      ∃ b, (HandleKeyPress run s w msg).outcome = .returned b) := by
  obtain ⟨h0, h1⟩ := h
  obtain ⟨v, hv, -⟩ := goIndex_of_valid s.Options s.SelectedIndex h0 h1
  by_cases hmsg : msg.Typ = .KeyEnter
  · cases hcb : s.OnSubmit with
    | none =>
      have hk : HandleKeyPress run s w msg =
          ⟨{ s with Submitted := true }, w, [], .returned true⟩ := by
        simp [HandleKeyPress, hmsg, hcb]
      rw [hk]
      exact ⟨⟨h0, h1⟩, hcb, by simp, fun _ => ⟨true, rfl⟩⟩
    | some c =>
      obtain ⟨hst, -, -, hout⟩ := HandleKeyPress_enter_callback run s w msg c v hmsg hcb hv
      have hsame := hq c hcb v { s with Submitted := true } w
      rw [hst, hout, hsame]
      refine ⟨⟨h0, h1⟩, hcb, ?_, ?_⟩
      · split <;> simp
      · intro hret
        rw [hret c rfl v { s with Submitted := true } w]
        exact ⟨true, rfl⟩
  · unfold HandleKeyPress indexValid
    split
    · split <;> refine ⟨⟨?_, ?_⟩, rfl, by simp, fun _ => ⟨false, rfl⟩⟩ <;> simp only <;> omega
    · split <;> refine ⟨⟨?_, ?_⟩, rfl, by simp, fun _ => ⟨false, rfl⟩⟩ <;> simp only <;> omega
    · rename_i he; exact absurd he hmsg
    · exact ⟨⟨h0, h1⟩, rfl, by simp, fun _ => ⟨true, rfl⟩⟩
    · split
      · split <;> refine ⟨⟨?_, ?_⟩, rfl, by simp, fun _ => ⟨false, rfl⟩⟩ <;> simp only <;> omega
      · split
        · split <;> refine ⟨⟨?_, ?_⟩, rfl, by simp, fun _ => ⟨false, rfl⟩⟩ <;> simp only <;>
            omega
        · exact ⟨⟨h0, h1⟩, rfl, by simp, fun _ => ⟨false, rfl⟩⟩

theorem deliver_indexValid {C W : Type} (run : Callbacks C W) (cb : Option C)
    (hq : ∀ c, cb = some c → leavesOverlay run c) (msgs : List KeyMsg) :
    ∀ (s : Overlay C) (w : W), indexValid s → s.OnSubmit = cb →
      (∀ r ∈ deliver run s w msgs, indexValid r.state ∧ r.outcome ≠ .indexOutOfRange) ∧
      (indexValid (runKeys run s w msgs).1 ∧ (runKeys run s w msgs).1.OnSubmit = cb) ∧
      ((∀ c, cb = some c → alwaysReturns run c) →
        (deliver run s w msgs).length = msgs.length ∧
        ∀ r ∈ deliver run s w msgs, ∃ b, r.outcome = .returned b) := by
  induction msgs with
  | nil => intro s w h hcb; simp [deliver, runKeys, h, hcb]
  | cons msg rest ih =>
    intro s w h hcb
    obtain ⟨hv, hcb1, hno, hret⟩ := HandleKeyPress_indexValid run s w msg h (hcb ▸ hq)
    obtain ⟨hall, hrun, hfull⟩ := ih (HandleKeyPress run s w msg).state
      (HandleKeyPress run s w msg).world hv (hcb1.trans hcb)
    cases hout : (HandleKeyPress run s w msg).outcome with
    | indexOutOfRange => exact absurd hout hno
    | callbackFailed =>
      refine ⟨?_, ?_, ?_⟩
      · simp only [deliver, hout, List.mem_singleton]
        rintro r rfl
        exact ⟨hv, hno⟩
      · simp only [runKeys, hout]
        exact ⟨hv, hcb1.trans hcb⟩
      · intro hr
        obtain ⟨b, hb⟩ := hret (hcb ▸ hr)
        rw [hb] at hout
        cases hout
    | returned b =>
      refine ⟨?_, ?_, ?_⟩
      · simp only [deliver, hout, List.mem_cons]
        rintro r (rfl | hr)
        · exact ⟨hv, hno⟩
        · exact hall r hr
      · simp only [runKeys, hout]
        exact hrun
      · intro hr
        obtain ⟨hlen, hall2⟩ := hfull hr
        simp only [deliver, hout, List.length_cons, hlen, List.mem_cons, true_and]
        rintro r (rfl | hr2)
        · exact ⟨b, hout⟩
        · exact hall2 r hr2

/-! ## Confirm -/

/-- C1, as stated, fails: the overlay built for A, B, C with the callback `reopen`
has a valid index and a callback attached; on Enter the callback is invoked once
with A, and it clears `Submitted`, so the call leaves `Submitted` false. -/
theorem confirm_callback_resets_submitted :
    enterKey.Typ = .KeyEnter ∧ reopenOverlay.Options ≠ [] ∧
    0 ≤ reopenOverlay.SelectedIndex ∧
    reopenOverlay.SelectedIndex < (reopenOverlay.Options.length : Int) ∧
    reopenOverlay.OnSubmit = some .reopen ∧
    (HandleKeyPress demoRun reopenOverlay [] enterKey).calls = ["A"] ∧
    (HandleKeyPress demoRun reopenOverlay [] enterKey).state.Submitted = false := by
  simp [HandleKeyPress, demoRun, reopenOverlay, SetOnSubmit, NewSelectionOverlay, enterKey,
    goIndex]

/-- C1, amended: on an overlay with a non-empty option list, a valid index and a
callback attached, an Enter event sets `Submitted` and then invokes the callback
exactly once, with `Options[SelectedIndex]` as the index stood when the event
arrived, on the overlay whose other fields are as they were; the call leaves the
overlay and the host state that the callback left, and it returns true exactly
when the callback returns.  When the callback returns without modifying the
overlay, the call leaves `Submitted` true and `SelectedIndex`, `Canceled`,
`Title` and `Options` unchanged, and returns true. -/
theorem confirm_invokes_callback_once {C W : Type} (run : Callbacks C W) (s : Overlay C)
    (w : W) (msg : KeyMsg) (c : C)
    (hmsg : msg.Typ = .KeyEnter) (_hne : s.Options ≠ [])
    (h0 : 0 ≤ s.SelectedIndex) (h1 : s.SelectedIndex < (s.Options.length : Int))
    (hcb : s.OnSubmit = some c) :
    ∃ selected, s.Options[s.SelectedIndex.toNat]? = some selected ∧
      (HandleKeyPress run s w msg).calls = [selected] ∧
      (HandleKeyPress run s w msg).state
        = (run c selected { s with Submitted := true } w).state ∧
      (HandleKeyPress run s w msg).world
        = (run c selected { s with Submitted := true } w).world ∧
      ((HandleKeyPress run s w msg).outcome = .returned true ↔
        (run c selected { s with Submitted := true } w).returns = true) ∧
      ((run c selected { s with Submitted := true } w).returns = true →
        (run c selected { s with Submitted := true } w).state = { s with Submitted := true } →
        (HandleKeyPress run s w msg).state.Submitted = true ∧
        (HandleKeyPress run s w msg).state.SelectedIndex = s.SelectedIndex ∧
        (HandleKeyPress run s w msg).state.Canceled = s.Canceled ∧
        (HandleKeyPress run s w msg).state.Title = s.Title ∧
        (HandleKeyPress run s w msg).state.Options = s.Options ∧
        (HandleKeyPress run s w msg).outcome = .returned true) := by
  obtain ⟨v, hv, hget⟩ := goIndex_of_valid s.Options s.SelectedIndex h0 h1
  obtain ⟨hst, hwo, hcalls, hout⟩ := HandleKeyPress_enter_callback run s w msg c v hmsg hcb hv
  refine ⟨v, hget, hcalls, hst, hwo, ?_, ?_⟩
  · rw [hout]
    cases (run c v { s with Submitted := true } w).returns <;> simp
  · intro hret hsame
    rw [hst, hout, hret, hsame]
    exact ⟨rfl, rfl, rfl, rfl, rfl, rfl⟩

theorem confirm_invokes_callback_once_witness :
    enterKey.Typ = .KeyEnter ∧ abcOverlay.Options ≠ [] ∧
    0 ≤ abcOverlay.SelectedIndex ∧
    abcOverlay.SelectedIndex < (abcOverlay.Options.length : Int) ∧
    abcOverlay.OnSubmit = some .log ∧
    (HandleKeyPress demoRun abcOverlay [] enterKey).calls = ["C"] ∧
    (HandleKeyPress demoRun abcOverlay [] enterKey).world = ["C"] ∧
    (HandleKeyPress demoRun abcOverlay [] enterKey).state.Submitted = true ∧
    ∃ selected, abcOverlay.Options[abcOverlay.SelectedIndex.toNat]? = some selected ∧
      (HandleKeyPress demoRun abcOverlay [] enterKey).calls = [selected] ∧
      (HandleKeyPress demoRun abcOverlay [] enterKey).state
        = (demoRun .log selected { abcOverlay with Submitted := true } []).state ∧
      (HandleKeyPress demoRun abcOverlay [] enterKey).world
        = (demoRun .log selected { abcOverlay with Submitted := true } []).world ∧
      ((HandleKeyPress demoRun abcOverlay [] enterKey).outcome = .returned true ↔
        (demoRun .log selected { abcOverlay with Submitted := true } []).returns = true) ∧
      ((demoRun .log selected { abcOverlay with Submitted := true } []).returns = true →
        (demoRun .log selected { abcOverlay with Submitted := true } []).state
          = { abcOverlay with Submitted := true } →
        (HandleKeyPress demoRun abcOverlay [] enterKey).state.Submitted = true ∧
        (HandleKeyPress demoRun abcOverlay [] enterKey).state.SelectedIndex
          = abcOverlay.SelectedIndex ∧
        (HandleKeyPress demoRun abcOverlay [] enterKey).state.Canceled = abcOverlay.Canceled ∧
        (HandleKeyPress demoRun abcOverlay [] enterKey).state.Title = abcOverlay.Title ∧
        (HandleKeyPress demoRun abcOverlay [] enterKey).state.Options = abcOverlay.Options ∧
        (HandleKeyPress demoRun abcOverlay [] enterKey).outcome = .returned true) :=
  ⟨rfl, by simp [abcOverlay], by simp [abcOverlay], by simp [abcOverlay], rfl,
    by simp [HandleKeyPress, demoRun, abcOverlay, enterKey, goIndex],
    by simp [HandleKeyPress, demoRun, abcOverlay, enterKey, goIndex],
    by simp [HandleKeyPress, demoRun, abcOverlay, enterKey, goIndex],
    confirm_invokes_callback_once demoRun abcOverlay [] enterKey .log rfl
      (by simp [abcOverlay]) (by simp [abcOverlay]) (by simp [abcOverlay]) rfl⟩

/-- C2: on an overlay built with an empty option list to which a callback has
been attached, an Enter event sets `Submitted` and then reads `Options[0]` of
the empty list: the call is stopped by the runtime instead of returning true,
and the callback is not invoked. -/
theorem confirm_empty_with_callback_fails {C W : Type} (run : Callbacks C W) (title : String)
    (c : C) (w : W) :
    HandleKeyPress run (SetOnSubmit (NewSelectionOverlay title []) (some c)) w enterKey =
      ⟨{ SetOnSubmit (NewSelectionOverlay title []) (some c) with Submitted := true },
        w, [], .indexOutOfRange⟩ := by
  simp [HandleKeyPress, SetOnSubmit, NewSelectionOverlay, enterKey, goIndex_nil]

/-! ## Invariants along a run -/

/-- C3: for a non-empty option list, the overlay built by `NewSelectionOverlay`
(with or without a callback attached afterwards; `cb = none` is the overlay as
built, and a callback attached is one that returns without modifying the
overlay) has `0 ≤ SelectedIndex < len(Options)`, and so has the state left by
every call of `HandleKeyPress` along any sequence of key messages; every
message of the sequence is handled and every call returns. -/
theorem selectedIndex_in_range_along_run {C W : Type} (run : Callbacks C W) (title : String)
    (options : List String) (cb : Option C) (w : W) (msgs : List KeyMsg) (hne : options ≠ [])
    (hq : ∀ c, cb = some c → leavesOverlay run c ∧ alwaysReturns run c) :
    indexValid (SetOnSubmit (NewSelectionOverlay title options) cb) ∧
    (deliver run (SetOnSubmit (NewSelectionOverlay title options) cb) w msgs).length
      = msgs.length ∧
    ∀ r ∈ deliver run (SetOnSubmit (NewSelectionOverlay title options) cb) w msgs,
      (0 ≤ r.state.SelectedIndex ∧
        r.state.SelectedIndex < (r.state.Options.length : Int)) ∧
      ∃ b, r.outcome = .returned b := by
  have h0 : indexValid (SetOnSubmit (NewSelectionOverlay title options) cb) := by
    have : 0 < options.length := List.length_pos.mpr hne
    simp only [indexValid, SetOnSubmit, NewSelectionOverlay]
    omega
  obtain ⟨hall, -, hfull⟩ := deliver_indexValid run cb (fun c hc => (hq c hc).1) msgs
    (SetOnSubmit (NewSelectionOverlay title options) cb) w h0 rfl
  obtain ⟨hlen, hret⟩ := hfull (fun c hc => (hq c hc).2)
  exact ⟨h0, hlen, fun r hr => ⟨(hall r hr).1, hret r hr⟩⟩

theorem selectedIndex_in_range_along_run_witness :
    ["A", "B", "C"] ≠ [] ∧
    (∀ c, some DemoCallback.log = some c → leavesOverlay demoRun c ∧ alwaysReturns demoRun c) ∧
    (indexValid (SetOnSubmit (NewSelectionOverlay "Pick" ["A", "B", "C"]) (some DemoCallback.log)) ∧
    (deliver demoRun (SetOnSubmit (NewSelectionOverlay "Pick" ["A", "B", "C"]) (some DemoCallback.log)) []
      [downKey, jKey, downKey, enterKey, kKey, escKey, upKey, upKey, xKey]).length
      = [downKey, jKey, downKey, enterKey, kKey, escKey, upKey, upKey, xKey].length ∧
    ∀ r ∈ deliver demoRun (SetOnSubmit (NewSelectionOverlay "Pick" ["A", "B", "C"]) (some DemoCallback.log))
        [] [downKey, jKey, downKey, enterKey, kKey, escKey, upKey, upKey, xKey],
      (0 ≤ r.state.SelectedIndex ∧
        r.state.SelectedIndex < (r.state.Options.length : Int)) ∧
      ∃ b, r.outcome = .returned b) :=
  have hq : ∀ c, some DemoCallback.log = some c →
      leavesOverlay demoRun c ∧ alwaysReturns demoRun c := by
    intro c hc
    cases hc
    exact ⟨fun _ _ _ => rfl, fun _ _ _ => rfl⟩
  ⟨by simp, hq, selectedIndex_in_range_along_run demoRun "Pick" ["A", "B", "C"] (some DemoCallback.log) []
    [downKey, jKey, downKey, enterKey, kKey, escKey, upKey, upKey, xKey] (by simp) hq⟩

theorem HandleKeyPress_noCallback {C W : Type} (run : Callbacks C W) (s : Overlay C) (w : W)
    (msg : KeyMsg) (hcb : s.OnSubmit = none) :
    (HandleKeyPress run s w msg).state.OnSubmit = none ∧
    (∃ b, (HandleKeyPress run s w msg).outcome = .returned b) ∧
    ((HandleKeyPress run s w msg).state.Submitted = true ↔
      s.Submitted = true ∨ msg.Typ = .KeyEnter) ∧
    ((HandleKeyPress run s w msg).state.Canceled = true ↔
      s.Canceled = true ∨ msg.Typ = .KeyEsc) := by
  obtain ⟨typ, str⟩ := msg
  cases typ <;> simp only [HandleKeyPress, hcb] <;> (repeat' split) <;> simp [hcb]

theorem deliver_noCallback {C W : Type} (run : Callbacks C W) (msgs : List KeyMsg) :
    ∀ (s : Overlay C) (w : W), s.OnSubmit = none →
      (deliver run s w msgs).length = msgs.length ∧
      ((runKeys run s w msgs).1.Submitted = true ↔
        s.Submitted = true ∨ ∃ m ∈ msgs, m.Typ = .KeyEnter) ∧
      ((runKeys run s w msgs).1.Canceled = true ↔
        s.Canceled = true ∨ ∃ m ∈ msgs, m.Typ = .KeyEsc) ∧
      ∀ r ∈ deliver run s w msgs,
        (r.state.Submitted = true → s.Submitted = true ∨ ∃ m ∈ msgs, m.Typ = .KeyEnter) ∧
        (r.state.Canceled = true → s.Canceled = true ∨ ∃ m ∈ msgs, m.Typ = .KeyEsc) := by
  induction msgs with
  | nil => intro s w _; simp [deliver, runKeys]
  | cons msg rest ih =>
    intro s w hcb
    obtain ⟨hcb1, ⟨b, hb⟩, hsub, hcan⟩ := HandleKeyPress_noCallback run s w msg hcb
    obtain ⟨hlen, hrs, hrc, hall⟩ := ih (HandleKeyPress run s w msg).state
      (HandleKeyPress run s w msg).world hcb1
    simp only [deliver, runKeys, hb, List.length_cons, hlen, List.mem_cons, exists_eq_or_imp,
      true_and]
    refine ⟨?_, ?_, ?_⟩
    · rw [hrs, hsub, or_assoc]
    · rw [hrc, hcan, or_assoc]
    · rintro r (rfl | hr)
      · exact ⟨fun h => or_assoc.mp (Or.inl (hsub.mp h)),
          fun h => or_assoc.mp (Or.inl (hcan.mp h))⟩
      · obtain ⟨h1, h2⟩ := hall r hr
        rw [hsub] at h1
        rw [hcan] at h2
        exact ⟨fun h => or_assoc.mp (h1 h), fun h => or_assoc.mp (h2 h)⟩

/-- C4, as stated, fails: on the overlay built for the one option A, Enter
followed by Esc leaves both `Submitted` and `Canceled` true. -/
theorem submitted_and_canceled_both_true :
    ∃ r ∈ deliver demoRun (NewSelectionOverlay "Pick" ["A"] : Overlay DemoCallback) []
        [enterKey, escKey],
      r.state.Submitted = true ∧ r.state.Canceled = true := by
  simp [deliver, HandleKeyPress, NewSelectionOverlay, enterKey, escKey]

/-- C4, amended: along any sequence of key messages delivered to the overlay built
by `NewSelectionOverlay`, for every option list, every message is handled, and
after the sequence `Submitted` is true exactly when an Enter was delivered and
`Canceled` exactly when an Esc was.  Hence `Submitted` and `Canceled` are never
both true in a state reached along a sequence that does not contain both an Enter
and an Esc. -/
theorem submitted_canceled_exclusive {C W : Type} (run : Callbacks C W) (title : String)
    (options : List String) (w : W) (msgs : List KeyMsg) :
    (deliver run (NewSelectionOverlay title options) w msgs).length = msgs.length ∧
    ((runKeys run (NewSelectionOverlay title options) w msgs).1.Submitted = true ↔
      ∃ m ∈ msgs, m.Typ = .KeyEnter) ∧
    ((runKeys run (NewSelectionOverlay title options) w msgs).1.Canceled = true ↔
      ∃ m ∈ msgs, m.Typ = .KeyEsc) ∧
    (¬ ((∃ m ∈ msgs, m.Typ = .KeyEnter) ∧ (∃ m ∈ msgs, m.Typ = .KeyEsc)) →
      ¬ ((NewSelectionOverlay title options : Overlay C).Submitted = true ∧
        (NewSelectionOverlay title options : Overlay C).Canceled = true) ∧
      ∀ r ∈ deliver run (NewSelectionOverlay title options) w msgs,
        ¬ (r.state.Submitted = true ∧ r.state.Canceled = true)) := by
  obtain ⟨hlen, hs, hc, hall⟩ :=
    deliver_noCallback run msgs (NewSelectionOverlay title options) w rfl
  refine ⟨hlen, ?_, ?_, ?_⟩
  · simpa [NewSelectionOverlay] using hs
  · simpa [NewSelectionOverlay] using hc
  · intro hnot
    refine ⟨by simp [NewSelectionOverlay], ?_⟩
    rintro r hr ⟨h1, h2⟩
    obtain ⟨g1, g2⟩ := hall r hr
    have e1 := g1 h1
    have e2 := g2 h2
    simp only [NewSelectionOverlay, Bool.false_eq_true, false_or] at e1 e2
    exact hnot ⟨e1, e2⟩

theorem submitted_canceled_exclusive_witness :
    ¬ ((∃ m ∈ [enterKey, downKey, enterKey, xKey], m.Typ = .KeyEnter) ∧
      (∃ m ∈ [enterKey, downKey, enterKey, xKey], m.Typ = .KeyEsc)) ∧
    (∀ r ∈ deliver demoRun (NewSelectionOverlay "Pick" ["A", "B"]) []
        [enterKey, downKey, enterKey, xKey],
      ¬ (r.state.Submitted = true ∧ r.state.Canceled = true)) ∧
    (deliver demoRun (NewSelectionOverlay "Pick" ["A", "B"]) []
      [enterKey, downKey, enterKey, xKey]).length = 4 ∧
    (runKeys demoRun (NewSelectionOverlay "Pick" ["A", "B"]) []
      [enterKey, downKey, enterKey, xKey]).1.Submitted = true :=
  have hnot : ¬ ((∃ m ∈ [enterKey, downKey, enterKey, xKey], m.Typ = .KeyEnter) ∧
      (∃ m ∈ [enterKey, downKey, enterKey, xKey], m.Typ = .KeyEsc)) := by
    simp [enterKey, downKey, xKey]
  have h := submitted_canceled_exclusive demoRun "Pick" ["A", "B"] ([] : List String)
    [enterKey, downKey, enterKey, xKey]
  ⟨hnot, (h.2.2.2 hnot).2, h.1, h.2.1.mpr ⟨enterKey, by simp, rfl⟩⟩

/-! ## Cancel -/

/-- C5: on an overlay that has not been submitted, at any index and with any
callback, an Esc event sets `Canceled`, leaves `Submitted` false, keeps
`SelectedIndex`, `Options` and the callback, does not invoke the callback and
returns true. -/
theorem cancel_sets_canceled_only {C W : Type} (run : Callbacks C W) (s : Overlay C)
    (w : W) (msg : KeyMsg)
    (hmsg : msg.Typ = .KeyEsc) (hs : s.Submitted = false) :
    (HandleKeyPress run s w msg).state.Canceled = true ∧
    (HandleKeyPress run s w msg).state.Submitted = false ∧
    (HandleKeyPress run s w msg).state.SelectedIndex = s.SelectedIndex ∧
    (HandleKeyPress run s w msg).state.Options = s.Options ∧
    (HandleKeyPress run s w msg).state.OnSubmit = s.OnSubmit ∧
    (HandleKeyPress run s w msg).calls = [] ∧
    (HandleKeyPress run s w msg).world = w ∧
    (HandleKeyPress run s w msg).outcome = .returned true := by
  simp [HandleKeyPress, hmsg, hs]

theorem cancel_sets_canceled_only_witness :
    escKey.Typ = .KeyEsc ∧ abcOverlay.Submitted = false ∧
    ((HandleKeyPress demoRun abcOverlay [] escKey).state.Canceled = true ∧
    (HandleKeyPress demoRun abcOverlay [] escKey).state.Submitted = false ∧
    (HandleKeyPress demoRun abcOverlay [] escKey).state.SelectedIndex = abcOverlay.SelectedIndex ∧
    (HandleKeyPress demoRun abcOverlay [] escKey).state.Options = abcOverlay.Options ∧
    (HandleKeyPress demoRun abcOverlay [] escKey).state.OnSubmit = abcOverlay.OnSubmit ∧
    (HandleKeyPress demoRun abcOverlay [] escKey).calls = [] ∧
    (HandleKeyPress demoRun abcOverlay [] escKey).world = [] ∧
    (HandleKeyPress demoRun abcOverlay [] escKey).outcome = .returned true) :=
  ⟨rfl, rfl, cancel_sets_canceled_only demoRun abcOverlay [] escKey rfl rfl⟩

/-! ## Navigation -/

/-- C6: a move-down event, be it the Down arrow or the printable key whose
string is "j", has one and the same effect: `SelectedIndex` grows by one when it
is below `len(Options) - 1` and stays otherwise (no wrap); `Submitted`,
`Canceled` and `Options` stay, the callback is not invoked, and the call
returns false. -/
theorem move_down_clamps {C W : Type} (run : Callbacks C W) (s : Overlay C)
    (w : W) (msg : KeyMsg)
    (hmsg : msg.Typ = .KeyDown ∨ (msg.Typ = .KeyRunes ∧ msg.Str = "j")) :
    (HandleKeyPress run s w msg).state.SelectedIndex =
      (if s.SelectedIndex < (s.Options.length : Int) - 1 then s.SelectedIndex + 1
        else s.SelectedIndex) ∧
    (HandleKeyPress run s w msg).state.Submitted = s.Submitted ∧
    (HandleKeyPress run s w msg).state.Canceled = s.Canceled ∧
    (HandleKeyPress run s w msg).state.Options = s.Options ∧
    (HandleKeyPress run s w msg).calls = [] ∧
    (HandleKeyPress run s w msg).world = w ∧
    (HandleKeyPress run s w msg).outcome = .returned false := by
  rcases hmsg with h | ⟨h, hj⟩
  · by_cases hlt : s.SelectedIndex < (s.Options.length : Int) - 1 <;>
      simp [HandleKeyPress, h, hlt]
  · by_cases hlt : s.SelectedIndex < (s.Options.length : Int) - 1 <;>
      simp [HandleKeyPress, h, hj, hlt]

theorem move_down_clamps_witness :
    (jKey.Typ = .KeyDown ∨ (jKey.Typ = .KeyRunes ∧ jKey.Str = "j")) ∧
    ((HandleKeyPress demoRun abcOverlay [] jKey).state.SelectedIndex =
      (if abcOverlay.SelectedIndex < (abcOverlay.Options.length : Int) - 1
        then abcOverlay.SelectedIndex + 1 else abcOverlay.SelectedIndex) ∧
    (HandleKeyPress demoRun abcOverlay [] jKey).state.Submitted = abcOverlay.Submitted ∧
    (HandleKeyPress demoRun abcOverlay [] jKey).state.Canceled = abcOverlay.Canceled ∧
    (HandleKeyPress demoRun abcOverlay [] jKey).state.Options = abcOverlay.Options ∧
    (HandleKeyPress demoRun abcOverlay [] jKey).calls = [] ∧
    (HandleKeyPress demoRun abcOverlay [] jKey).world = [] ∧
    (HandleKeyPress demoRun abcOverlay [] jKey).outcome = .returned false) :=
  ⟨Or.inr ⟨rfl, rfl⟩, move_down_clamps demoRun abcOverlay [] jKey (Or.inr ⟨rfl, rfl⟩)⟩

/-- C7: a move-up event, be it the Up arrow or the printable key whose string is
"k", has one and the same effect: `SelectedIndex` shrinks by one when it is
above 0 and stays otherwise, in particular at 0 (no wrap); `Submitted`,
`Canceled` and `Options` stay, the callback is not invoked, and the call
returns false. -/
theorem move_up_clamps {C W : Type} (run : Callbacks C W) (s : Overlay C)
    (w : W) (msg : KeyMsg)
    (hmsg : msg.Typ = .KeyUp ∨ (msg.Typ = .KeyRunes ∧ msg.Str = "k")) :
    (HandleKeyPress run s w msg).state.SelectedIndex =
      (if s.SelectedIndex > 0 then s.SelectedIndex - 1 else s.SelectedIndex) ∧
    (HandleKeyPress run s w msg).state.Submitted = s.Submitted ∧
    (HandleKeyPress run s w msg).state.Canceled = s.Canceled ∧
    (HandleKeyPress run s w msg).state.Options = s.Options ∧
    (HandleKeyPress run s w msg).calls = [] ∧
    (HandleKeyPress run s w msg).world = w ∧
    (HandleKeyPress run s w msg).outcome = .returned false := by
  rcases hmsg with h | ⟨h, hk⟩
  · by_cases hgt : s.SelectedIndex > 0 <;>
      simp [HandleKeyPress, h, hgt]
  · by_cases hgt : s.SelectedIndex > 0 <;>
      simp [HandleKeyPress, h, hk, hgt]

theorem move_up_clamps_witness :
    (kKey.Typ = .KeyUp ∨ (kKey.Typ = .KeyRunes ∧ kKey.Str = "k")) ∧
    ((HandleKeyPress demoRun abcOverlay [] kKey).state.SelectedIndex =
      (if abcOverlay.SelectedIndex > 0 then abcOverlay.SelectedIndex - 1
        else abcOverlay.SelectedIndex) ∧
    (HandleKeyPress demoRun abcOverlay [] kKey).state.Submitted = abcOverlay.Submitted ∧
    (HandleKeyPress demoRun abcOverlay [] kKey).state.Canceled = abcOverlay.Canceled ∧
    (HandleKeyPress demoRun abcOverlay [] kKey).state.Options = abcOverlay.Options ∧
    (HandleKeyPress demoRun abcOverlay [] kKey).calls = [] ∧
    (HandleKeyPress demoRun abcOverlay [] kKey).world = [] ∧
    (HandleKeyPress demoRun abcOverlay [] kKey).outcome = .returned false) :=
  ⟨Or.inr ⟨rfl, rfl⟩, move_up_clamps demoRun abcOverlay [] kKey (Or.inr ⟨rfl, rfl⟩)⟩

/-- C8: a key message whose type is none of Up, Down, Enter, Esc and whose
string is neither "j" nor "k" leaves the whole overlay as it was, does not
invoke the callback, and the call returns false. -/
theorem unrecognised_key_is_inert {C W : Type} (run : Callbacks C W) (s : Overlay C)
    (w : W) (msg : KeyMsg)
    (hup : msg.Typ ≠ .KeyUp) (hdown : msg.Typ ≠ .KeyDown)
    (henter : msg.Typ ≠ .KeyEnter) (hesc : msg.Typ ≠ .KeyEsc)
    (hj : msg.Str ≠ "j") (hk : msg.Str ≠ "k") :
    (HandleKeyPress run s w msg).state = s ∧
    (HandleKeyPress run s w msg).state.SelectedIndex = s.SelectedIndex ∧
    (HandleKeyPress run s w msg).state.Submitted = s.Submitted ∧
    (HandleKeyPress run s w msg).state.Canceled = s.Canceled ∧
    (HandleKeyPress run s w msg).state.Options = s.Options ∧
    (HandleKeyPress run s w msg).calls = [] ∧
    (HandleKeyPress run s w msg).world = w ∧
    (HandleKeyPress run s w msg).outcome = .returned false := by
  have h : HandleKeyPress run s w msg = ⟨s, w, [], .returned false⟩ := by
    unfold HandleKeyPress
    split
    · rename_i h; exact absurd h hup
    · rename_i h; exact absurd h hdown
    · rename_i h; exact absurd h henter
    · rename_i h; exact absurd h hesc
    · simp [hj, hk]
  simp [h]

theorem unrecognised_key_is_inert_witness :
    xKey.Typ ≠ .KeyUp ∧ xKey.Typ ≠ .KeyDown ∧ xKey.Typ ≠ .KeyEnter ∧ xKey.Typ ≠ .KeyEsc ∧
    xKey.Str ≠ "j" ∧ xKey.Str ≠ "k" ∧
    ((HandleKeyPress demoRun abcOverlay [] xKey).state = abcOverlay ∧
    (HandleKeyPress demoRun abcOverlay [] xKey).state.SelectedIndex = abcOverlay.SelectedIndex ∧
    (HandleKeyPress demoRun abcOverlay [] xKey).state.Submitted = abcOverlay.Submitted ∧
    (HandleKeyPress demoRun abcOverlay [] xKey).state.Canceled = abcOverlay.Canceled ∧
    (HandleKeyPress demoRun abcOverlay [] xKey).state.Options = abcOverlay.Options ∧
    (HandleKeyPress demoRun abcOverlay [] xKey).calls = [] ∧
    (HandleKeyPress demoRun abcOverlay [] xKey).world = [] ∧
    (HandleKeyPress demoRun abcOverlay [] xKey).outcome = .returned false) :=
  ⟨by decide, by decide, by decide, by decide, by decide, by decide,
    unrecognised_key_is_inert demoRun abcOverlay [] xKey (by decide) (by decide) (by decide)
      (by decide) (by decide) (by decide)⟩

/-! ## The selected option -/

/-- C9: for every overlay state, whatever the option list and the integer
`SelectedIndex`, `GetSelectedOption` returns a value (it never fails), and that
value is `Options[SelectedIndex]` when `0 ≤ SelectedIndex < len(Options)` and the
empty string otherwise; in particular it is the empty string when `Options` is
empty.  The query produces a string only: it has no effect on the overlay. -/
theorem getSelectedOption_total {C : Type} (s : Overlay C) :
    (∃ v, GetSelectedOption s = some v) ∧
    (0 ≤ s.SelectedIndex ∧ s.SelectedIndex < (s.Options.length : Int) →
      ∃ v, s.Options[s.SelectedIndex.toNat]? = some v ∧ GetSelectedOption s = some v) ∧
    (¬ (0 ≤ s.SelectedIndex ∧ s.SelectedIndex < (s.Options.length : Int)) →
      GetSelectedOption s = some "") ∧
    (s.Options = [] → GetSelectedOption s = some "") := by
  have hin : 0 ≤ s.SelectedIndex ∧ s.SelectedIndex < (s.Options.length : Int) →
      ∃ v, s.Options[s.SelectedIndex.toNat]? = some v ∧ GetSelectedOption s = some v := by
    rintro ⟨h0, h1⟩
    obtain ⟨v, hv, hget⟩ := goIndex_of_valid s.Options s.SelectedIndex h0 h1
    exact ⟨v, hget, by simp [GetSelectedOption, h0, h1, hv]⟩
  have hout : ¬ (0 ≤ s.SelectedIndex ∧ s.SelectedIndex < (s.Options.length : Int)) →
      GetSelectedOption s = some "" := by
    intro h
    simp only [GetSelectedOption, ge_iff_le, h, ↓reduceIte]
  refine ⟨?_, hin, hout, ?_⟩
  · by_cases h : 0 ≤ s.SelectedIndex ∧ s.SelectedIndex < (s.Options.length : Int)
    · obtain ⟨v, -, hv⟩ := hin h
      exact ⟨v, hv⟩
    · exact ⟨"", hout h⟩
  · intro hnil
    apply hout
    simp [hnil]

theorem getSelectedOption_total_witness :
    GetSelectedOption abcOverlay = some "C" ∧ GetSelectedOption strayOverlay = some "" ∧
    ((∃ v, GetSelectedOption strayOverlay = some v) ∧
    (0 ≤ strayOverlay.SelectedIndex ∧
        strayOverlay.SelectedIndex < (strayOverlay.Options.length : Int) →
      ∃ v, strayOverlay.Options[strayOverlay.SelectedIndex.toNat]? = some v ∧
        GetSelectedOption strayOverlay = some v) ∧
    (¬ (0 ≤ strayOverlay.SelectedIndex ∧
        strayOverlay.SelectedIndex < (strayOverlay.Options.length : Int)) →
      GetSelectedOption strayOverlay = some "") ∧
    (strayOverlay.Options = [] → GetSelectedOption strayOverlay = some "")) :=
  ⟨by simp [GetSelectedOption, abcOverlay, goIndex],
    by simp [GetSelectedOption, strayOverlay],
    getSelectedOption_total strayOverlay⟩

/-! ## Confirm without a callback -/

/-- C10: on every overlay state with no callback attached, whatever the option
list (empty included) and the index, an Enter event returns (it does not fail),
sets `Submitted`, keeps `SelectedIndex` and `Canceled`, and returns true. -/
theorem confirm_without_callback {C W : Type} (run : Callbacks C W) (s : Overlay C)
    (w : W) (msg : KeyMsg)
    (hmsg : msg.Typ = .KeyEnter) (hcb : s.OnSubmit = none) :
    (HandleKeyPress run s w msg).outcome = .returned true ∧
    (HandleKeyPress run s w msg).state.Submitted = true ∧
    (HandleKeyPress run s w msg).state.SelectedIndex = s.SelectedIndex ∧
    (HandleKeyPress run s w msg).state.Canceled = s.Canceled ∧
    (HandleKeyPress run s w msg).state.Options = s.Options ∧
    (HandleKeyPress run s w msg).calls = [] ∧
    (HandleKeyPress run s w msg).world = w := by
  simp [HandleKeyPress, hmsg, hcb]

theorem confirm_without_callback_witness :
    enterKey.Typ = .KeyEnter ∧ strayOverlay.OnSubmit = none ∧
    ((HandleKeyPress demoRun strayOverlay [] enterKey).outcome = .returned true ∧
    (HandleKeyPress demoRun strayOverlay [] enterKey).state.Submitted = true ∧
    (HandleKeyPress demoRun strayOverlay [] enterKey).state.SelectedIndex = strayOverlay.SelectedIndex ∧
    (HandleKeyPress demoRun strayOverlay [] enterKey).state.Canceled = strayOverlay.Canceled ∧
    (HandleKeyPress demoRun strayOverlay [] enterKey).state.Options = strayOverlay.Options ∧
    (HandleKeyPress demoRun strayOverlay [] enterKey).calls = [] ∧
    (HandleKeyPress demoRun strayOverlay [] enterKey).world = []) :=
  ⟨rfl, rfl, confirm_without_callback demoRun strayOverlay [] enterKey rfl rfl⟩

/-! ## Construction -/

/-- C11: for every title and every option list, the empty list included,
`NewSelectionOverlay` returns an overlay with that title, those options in the
same order, `SelectedIndex = 0`, both flags false and no callback; the
constructor has no failing case. -/
theorem newSelectionOverlay_fields {C : Type} (title : String) (options : List String) :
    (NewSelectionOverlay title options : Overlay C).Title = title ∧
    (NewSelectionOverlay title options : Overlay C).Options = options ∧
    (NewSelectionOverlay title options : Overlay C).SelectedIndex = 0 ∧
    (NewSelectionOverlay title options : Overlay C).Submitted = false ∧
    (NewSelectionOverlay title options : Overlay C).Canceled = false ∧
    (NewSelectionOverlay title options : Overlay C).OnSubmit = none ∧
    (NewSelectionOverlay title [] : Overlay C).Options = [] ∧
    (NewSelectionOverlay title [] : Overlay C).SelectedIndex = 0 :=
  ⟨rfl, rfl, rfl, rfl, rfl, rfl, rfl, rfl⟩

/-! ## Rendering -/

theorem renderLoop_eq_joinLines (st : Styles) (selectedIndex : Int) (opts : List String) :
    ∀ (k : Nat) (content : String),
      renderLoop st selectedIndex opts (k : Int) content =
        content ++ joinLines ((opts.enumFrom k).map fun io =>
          rowMarkerSpec selectedIndex io.1 ++ rowStyleSpec st selectedIndex io.1 io.2 ++ "\n") := by
  induction opts with
  | nil => intro k content; simp [renderLoop, joinLines]
  | cons o rest ih =>
    intro k content
    have hk : ((k : Int) + 1) = ((k + 1 : Nat) : Int) := by push_cast; rfl
    simp only [renderLoop, List.enumFrom_cons, List.map_cons, joinLines]
    by_cases h : (k : Int) = selectedIndex
    · simp only [if_pos h]
      rw [hk, ih, String.append_assoc]
      simp only [rowMarkerSpec, rowStyleSpec, if_pos h]
    · simp only [if_neg h]
      rw [hk, ih, String.append_assoc]
      simp only [rowMarkerSpec, rowStyleSpec, if_neg h]

theorem renderContent_eq_contentSpec {C : Type} (st : Styles) (s : Overlay C) :
    renderContent st s = contentSpec st s := by
  have h := renderLoop_eq_joinLines st s.SelectedIndex s.Options 0 (st.titleStyle s.Title ++ "\n")
  simp only [Nat.cast_zero] at h
  simp only [renderContent, contentSpec, optionLinesSpec, List.enum, h]

theorem rowMarkerSpec_eq_marker (selectedIndex : Int) (i : Nat) :
    rowMarkerSpec selectedIndex i = "> " ↔ (i : Int) = selectedIndex := by
  unfold rowMarkerSpec
  split
  · simp [*]
  · simp only [*, iff_false]; decide

theorem optionLinesSpec_getElem? {C : Type} (st : Styles) (s : Overlay C) (i : Nat)
    (opt : String) (h : s.Options[i]? = some opt) :
    (optionLinesSpec st s)[i]? =
      some (if (i : Int) = s.SelectedIndex then "> " ++ st.selectedOptionStyle opt ++ "\n"
        else "  " ++ st.optionStyle opt ++ "\n") := by
  simp only [optionLinesSpec, List.getElem?_map, List.getElem?_enum, h, Option.map_some',
    rowMarkerSpec, rowStyleSpec]
  split <;> rfl

/-- C12: with the styles as arbitrary functions, the text `Render` passes to the
border style is the styled title and a newline, then one line per option in list
order, then the styled hint.  Line `i` is "> " followed by the selected-row
style of `Options[i]` and a newline when `i = SelectedIndex`, and two blanks
followed by the normal style of `Options[i]` and a newline otherwise.  There
are `len(Options)` option lines; when `0 ≤ SelectedIndex < len(Options)` exactly
one row has the marker "> ", and when the index is out of range or the list is
empty no row has it. -/
theorem render_content_layout {C : Type} (st : Styles) (s : Overlay C) :
    (Render st s).2 = st.style (contentSpec st s) ∧
    contentSpec st s =
      st.titleStyle s.Title ++ "\n" ++ joinLines (optionLinesSpec st s) ++ st.hintStyle hintText ∧
    (optionLinesSpec st s).length = s.Options.length ∧
    (∀ (i : Nat) (opt : String), s.Options[i]? = some opt →
      (optionLinesSpec st s)[i]? =
        some (if (i : Int) = s.SelectedIndex then "> " ++ st.selectedOptionStyle opt ++ "\n"
          else "  " ++ st.optionStyle opt ++ "\n")) ∧
    (0 ≤ s.SelectedIndex ∧ s.SelectedIndex < (s.Options.length : Int) →
      ∃! i : Nat, i < s.Options.length ∧ rowMarkerSpec s.SelectedIndex i = "> ") ∧
    (¬ (0 ≤ s.SelectedIndex ∧ s.SelectedIndex < (s.Options.length : Int)) →
      ∀ i : Nat, i < s.Options.length → rowMarkerSpec s.SelectedIndex i = "  ") ∧
    (s.Options = [] → optionLinesSpec st s = []) := by
  refine ⟨?_, rfl, ?_, optionLinesSpec_getElem? st s, ?_, ?_, ?_⟩
  · simp only [Render, renderContent_eq_contentSpec]
  · simp [optionLinesSpec]
  · rintro ⟨h0, h1⟩
    refine ⟨s.SelectedIndex.toNat, ⟨by omega, ?_⟩, ?_⟩
    · exact (rowMarkerSpec_eq_marker _ _).mpr (by omega)
    · rintro j ⟨-, hj⟩
      have := (rowMarkerSpec_eq_marker _ _).mp hj
      omega
  · intro hout i hi
    have hne : ¬ ((i : Int) = s.SelectedIndex) := by omega
    simp [rowMarkerSpec, hne]
  · intro hnil
    simp [optionLinesSpec, hnil]

theorem render_content_layout_witness :
    (Render plainStyles abcOverlay).2 =
      "[T:Pick\n  A\n  B\n> *C*\nH:↑↓/jk: navigate • enter: select • esc: cancel]" ∧
    ((Render plainStyles abcOverlay).2 = plainStyles.style (contentSpec plainStyles abcOverlay) ∧
    contentSpec plainStyles abcOverlay =
      plainStyles.titleStyle abcOverlay.Title ++ "\n" ++
        joinLines (optionLinesSpec plainStyles abcOverlay) ++ plainStyles.hintStyle hintText ∧
    (optionLinesSpec plainStyles abcOverlay).length = abcOverlay.Options.length ∧
    (∀ (i : Nat) (opt : String), abcOverlay.Options[i]? = some opt →
      (optionLinesSpec plainStyles abcOverlay)[i]? =
        some (if (i : Int) = abcOverlay.SelectedIndex
          then "> " ++ plainStyles.selectedOptionStyle opt ++ "\n"
          else "  " ++ plainStyles.optionStyle opt ++ "\n")) ∧
    (0 ≤ abcOverlay.SelectedIndex ∧
        abcOverlay.SelectedIndex < (abcOverlay.Options.length : Int) →
      ∃! i : Nat, i < abcOverlay.Options.length ∧
        rowMarkerSpec abcOverlay.SelectedIndex i = "> ") ∧
    (¬ (0 ≤ abcOverlay.SelectedIndex ∧
        abcOverlay.SelectedIndex < (abcOverlay.Options.length : Int)) →
      ∀ i : Nat, i < abcOverlay.Options.length →
        rowMarkerSpec abcOverlay.SelectedIndex i = "  ") ∧
    (abcOverlay.Options = [] → optionLinesSpec plainStyles abcOverlay = [])) :=
  ⟨by decide, render_content_layout plainStyles abcOverlay⟩

/-- C13: for every overlay state, open or closed, `Render` and `View` (which
delegates to `Render`) leave the overlay exactly as it was, so a second call
made right after the first returns the same text. -/
theorem render_leaves_overlay_unchanged {C : Type} (st : Styles) (s : Overlay C) :
    (Render st s).1 = s ∧
    (View st s).1 = s ∧
    View st s = Render st s ∧
    (Render st (Render st s).1).2 = (Render st s).2 ∧
    (View st (View st s).1).2 = (View st s).2 :=
  ⟨rfl, rfl, rfl, rfl, rfl⟩

/-! ## Runs of navigation events -/

theorem HandleKeyPress_moveDown {C W : Type} (run : Callbacks C W) (s : Overlay C)
    (w : W) (msg : KeyMsg)
    (h : isMoveDown msg) :
    HandleKeyPress run s w msg =
      ⟨{ s with SelectedIndex :=
          if s.SelectedIndex < (s.Options.length : Int) - 1 then s.SelectedIndex + 1
          else s.SelectedIndex }, w, [], .returned false⟩ := by
  rcases h with h | ⟨h, hj⟩
  · by_cases hlt : s.SelectedIndex < (s.Options.length : Int) - 1 <;>
      simp [HandleKeyPress, h, hlt]
  · by_cases hlt : s.SelectedIndex < (s.Options.length : Int) - 1 <;>
      simp [HandleKeyPress, h, hj, hlt]

theorem HandleKeyPress_moveUp {C W : Type} (run : Callbacks C W) (s : Overlay C)
    (w : W) (msg : KeyMsg)
    (h : isMoveUp msg) :
    HandleKeyPress run s w msg =
      ⟨{ s with SelectedIndex :=
          if s.SelectedIndex > 0 then s.SelectedIndex - 1 else s.SelectedIndex },
        w, [], .returned false⟩ := by
  rcases h with h | ⟨h, hk⟩
  · by_cases hgt : s.SelectedIndex > 0 <;> simp [HandleKeyPress, h, hgt]
  · by_cases hgt : s.SelectedIndex > 0 <;> simp [HandleKeyPress, h, hk, hgt]

theorem runKeys_moveDown {C W : Type} (run : Callbacks C W) (msgs : List KeyMsg) :
    ∀ (s : Overlay C) (w : W), (∀ m ∈ msgs, isMoveDown m) →
      runKeys run s w msgs =
        ({ s with SelectedIndex :=
            if s.SelectedIndex < (s.Options.length : Int) - 1 then
              (min (s.SelectedIndex + (msgs.length : Int)) ((s.Options.length : Int) - 1))
            else s.SelectedIndex }, w) ∧
      (deliver run s w msgs).length = msgs.length ∧
      ∀ r ∈ deliver run s w msgs, r.outcome = .returned false ∧ r.calls = [] := by
  induction msgs with
  | nil =>
    intro s w _
    refine ⟨?_, by simp [deliver], by simp [deliver]⟩
    simp only [runKeys, List.length_nil, Nat.cast_zero, add_zero]
    congr 1
    have : min s.SelectedIndex ((s.Options.length : Int) - 1) = s.SelectedIndex ∨
        ¬ s.SelectedIndex < (s.Options.length : Int) - 1 := by omega
    rcases this with h | h
    · simp [h]
    · simp [h]
  | cons msg rest ih =>
    intro s w hall
    have hstep := HandleKeyPress_moveDown run s w msg (hall msg (List.mem_cons_self _ _))
    obtain ⟨hrun, hlen, hout⟩ := ih (HandleKeyPress run s w msg).state (HandleKeyPress run s w msg).world
      (fun m hm => hall m (List.mem_cons_of_mem _ hm))
    refine ⟨?_, ?_, ?_⟩
    · simp only [runKeys, hstep] at hrun ⊢
      rw [hrun]
      congr 1
      simp only [List.length_cons, Nat.cast_add, Nat.cast_one]
      congr 1
      split_ifs <;> omega
    · simp only [deliver, hstep] at hlen ⊢
      simp [hlen]
    · simp only [deliver, hstep] at hout ⊢
      intro r hr
      rcases List.mem_cons.mp hr with rfl | hr
      · exact ⟨rfl, rfl⟩
      · exact hout r hr

theorem runKeys_moveUp {C W : Type} (run : Callbacks C W) (msgs : List KeyMsg) :
    ∀ (s : Overlay C) (w : W), 0 ≤ s.SelectedIndex → (∀ m ∈ msgs, isMoveUp m) →
      runKeys run s w msgs =
        ({ s with SelectedIndex := max (s.SelectedIndex - (msgs.length : Int)) 0 }, w) ∧
      (deliver run s w msgs).length = msgs.length ∧
      ∀ r ∈ deliver run s w msgs, r.outcome = .returned false ∧ r.calls = [] := by
  induction msgs with
  | nil =>
    intro s w h0 _
    refine ⟨?_, by simp [deliver], by simp [deliver]⟩
    simp only [runKeys, List.length_nil, Nat.cast_zero, sub_zero]
    congr 1
    rw [max_eq_left h0]
  | cons msg rest ih =>
    intro s w h0 hall
    have hstep := HandleKeyPress_moveUp run s w msg (hall msg (List.mem_cons_self _ _))
    have h0step : 0 ≤ (HandleKeyPress run s w msg).state.SelectedIndex := by
      rw [hstep]; simp only; split_ifs <;> omega
    obtain ⟨hrun, hlen, hout⟩ := ih (HandleKeyPress run s w msg).state (HandleKeyPress run s w msg).world
      h0step (fun m hm => hall m (List.mem_cons_of_mem _ hm))
    refine ⟨?_, ?_, ?_⟩
    · simp only [runKeys, hstep] at hrun ⊢
      rw [hrun]
      congr 1
      simp only [List.length_cons, Nat.cast_add, Nat.cast_one]
      congr 1
      split_ifs <;> omega
    · simp only [deliver, hstep] at hlen ⊢
      simp [hlen]
    · simp only [deliver, hstep] at hout ⊢
      intro r hr
      rcases List.mem_cons.mp hr with rfl | hr
      · exact ⟨rfl, rfl⟩
      · exact hout r hr

theorem runKeys_eq_deliver_getLast {C W : Type} (run : Callbacks C W) (msgs : List KeyMsg) :
    ∀ (s : Overlay C) (w : W),
      runKeys run s w msgs =
        match (deliver run s w msgs).getLast? with
        | some r => (r.state, r.world)
        | none => (s, w) := by
  induction msgs with
  | nil => intro s w; simp [runKeys, deliver]
  | cons msg rest ih =>
    intro s w
    cases hout : (HandleKeyPress run s w msg).outcome with
    | indexOutOfRange => simp [runKeys, deliver, hout]
    | callbackFailed => simp [runKeys, deliver, hout]
    | returned b =>
      simp only [runKeys, deliver, hout]
      rw [ih]
      cases hd : deliver run (HandleKeyPress run s w msg).state (HandleKeyPress run s w msg).world rest with
      | nil => simp
      | cons r rs =>
        rw [List.getLast?_cons_cons, List.getLast?_eq_getLast (r :: rs) (List.cons_ne_nil _ _)]

/-- C15: from any overlay whose `SelectedIndex` is `i ≥ 0`, `n` move-up events
(Up or "k", in any mix) are all handled, every call returns false, and they
leave `SelectedIndex = max(i - n, 0)`: the index never goes below 0, is 0 once
`n ≥ i`, and the other fields are as they were. -/
theorem move_up_run_clamps {C W : Type} (run : Callbacks C W) (s : Overlay C)
    (w : W) (msgs : List KeyMsg)
    (h0 : 0 ≤ s.SelectedIndex) (hup : ∀ m ∈ msgs, isMoveUp m) :
    (runKeys run s w msgs).1.SelectedIndex = max (s.SelectedIndex - (msgs.length : Int)) 0 ∧
    0 ≤ (runKeys run s w msgs).1.SelectedIndex ∧
    (s.SelectedIndex ≤ (msgs.length : Int) → (runKeys run s w msgs).1.SelectedIndex = 0) ∧
    runKeys run s w msgs =
      ({ s with SelectedIndex := max (s.SelectedIndex - (msgs.length : Int)) 0 }, w) ∧
    (deliver run s w msgs).length = msgs.length ∧
    ∀ r ∈ deliver run s w msgs, r.outcome = .returned false ∧ r.calls = [] := by
  obtain ⟨hrun, hlen, hout⟩ := runKeys_moveUp run msgs s w h0 hup
  refine ⟨by rw [hrun], by rw [hrun]; exact le_max_right _ _, ?_, hrun, hlen, hout⟩
  intro hle
  rw [hrun]
  exact max_eq_right (by omega)

theorem move_up_run_clamps_witness :
    0 ≤ abcOverlay.SelectedIndex ∧ (∀ m ∈ [upKey, kKey, upKey, kKey], isMoveUp m) ∧
    (runKeys demoRun abcOverlay [] [upKey, kKey, upKey, kKey]).1.SelectedIndex = 0 ∧
    ((runKeys demoRun abcOverlay [] [upKey, kKey, upKey, kKey]).1.SelectedIndex
      = max (abcOverlay.SelectedIndex - ([upKey, kKey, upKey, kKey].length : Int)) 0 ∧
    0 ≤ (runKeys demoRun abcOverlay [] [upKey, kKey, upKey, kKey]).1.SelectedIndex) :=
  have hup : ∀ m ∈ [upKey, kKey, upKey, kKey], isMoveUp m := by
    simp [isMoveUp, upKey, kKey]
  have h := move_up_run_clamps demoRun abcOverlay [] [upKey, kKey, upKey, kKey]
    (by simp [abcOverlay]) hup
  ⟨by simp [abcOverlay], hup,
    by simp [runKeys, HandleKeyPress, abcOverlay, upKey, kKey], h.1, h.2.1⟩

/-- C14, as stated, fails: on the overlay built for A, B, C with the callback
`reopen`, three move-down events leave the cursor on C, and the Enter that
follows invokes the callback once with C; the callback clears `Submitted`, so
the call leaves `Submitted` false. -/
theorem move_down_confirm_callback_resets :
    1 ≤ ["A", "B", "C"].length ∧ (∀ m ∈ [downKey, jKey, downKey], isMoveDown m) ∧
    (runKeys demoRun reopenOverlay [] [downKey, jKey, downKey]).1.SelectedIndex = 2 ∧
    (HandleKeyPress demoRun (runKeys demoRun reopenOverlay [] [downKey, jKey, downKey]).1
      (runKeys demoRun reopenOverlay [] [downKey, jKey, downKey]).2 enterKey).calls = ["C"] ∧
    (HandleKeyPress demoRun (runKeys demoRun reopenOverlay [] [downKey, jKey, downKey]).1
      (runKeys demoRun reopenOverlay [] [downKey, jKey, downKey]).2 enterKey).state.Submitted
      = false := by
  simp [runKeys, HandleKeyPress, demoRun, reopenOverlay, SetOnSubmit, NewSelectionOverlay,
    isMoveDown, downKey, jKey, enterKey, goIndex]

/-- C14, amended: on the overlay built for a list of `m ≥ 1` options with a
callback attached, `n` move-down events (Down or "j", in any mix) are all
handled, every call returns false without invoking the callback, and they leave
`SelectedIndex = min(n, m-1)` and nothing else changed; an Enter event delivered
next sets `Submitted` and invokes the callback exactly once, with
`Options[min(n, m-1)]`, and leaves what the callback left.  When the callback
returns without modifying the overlay, the call leaves `Submitted` true and
returns true. -/
theorem move_down_run_then_confirm {C W : Type} (run : Callbacks C W) (title : String)
    (options : List String) (c : C) (w : W) (msgs : List KeyMsg) (enter : KeyMsg)
    (hm : 1 ≤ options.length) (hdown : ∀ m ∈ msgs, isMoveDown m)
    (henter : enter.Typ = .KeyEnter) :
    (deliver run (SetOnSubmit (NewSelectionOverlay title options) (some c)) w msgs).length
      = msgs.length ∧
    (∀ r ∈ deliver run (SetOnSubmit (NewSelectionOverlay title options) (some c)) w msgs,
      r.outcome = .returned false ∧ r.calls = []) ∧
    (runKeys run (SetOnSubmit (NewSelectionOverlay title options) (some c)) w msgs).1.SelectedIndex
      = min (msgs.length : Int) ((options.length : Int) - 1) ∧
    runKeys run (SetOnSubmit (NewSelectionOverlay title options) (some c)) w msgs =
      ({ SetOnSubmit (NewSelectionOverlay title options) (some c) with
          SelectedIndex := min (msgs.length : Int) ((options.length : Int) - 1) }, w) ∧
    ∃ selected, options[min msgs.length (options.length - 1)]? = some selected ∧
      (HandleKeyPress run
        (runKeys run (SetOnSubmit (NewSelectionOverlay title options) (some c)) w msgs).1
        (runKeys run (SetOnSubmit (NewSelectionOverlay title options) (some c)) w msgs).2
        enter).calls = [selected] ∧
      (HandleKeyPress run
        (runKeys run (SetOnSubmit (NewSelectionOverlay title options) (some c)) w msgs).1
        (runKeys run (SetOnSubmit (NewSelectionOverlay title options) (some c)) w msgs).2
        enter).state =
        (run c selected { SetOnSubmit (NewSelectionOverlay title options) (some c) with
          SelectedIndex := min (msgs.length : Int) ((options.length : Int) - 1)
          Submitted := true } w).state ∧
      (HandleKeyPress run
        (runKeys run (SetOnSubmit (NewSelectionOverlay title options) (some c)) w msgs).1
        (runKeys run (SetOnSubmit (NewSelectionOverlay title options) (some c)) w msgs).2
        enter).world =
        (run c selected { SetOnSubmit (NewSelectionOverlay title options) (some c) with
          SelectedIndex := min (msgs.length : Int) ((options.length : Int) - 1)
          Submitted := true } w).world ∧
      ((run c selected { SetOnSubmit (NewSelectionOverlay title options) (some c) with
          SelectedIndex := min (msgs.length : Int) ((options.length : Int) - 1)
          Submitted := true } w).returns = true →
        (run c selected { SetOnSubmit (NewSelectionOverlay title options) (some c) with
          SelectedIndex := min (msgs.length : Int) ((options.length : Int) - 1)
          Submitted := true } w).state =
          { SetOnSubmit (NewSelectionOverlay title options) (some c) with
            SelectedIndex := min (msgs.length : Int) ((options.length : Int) - 1)
            Submitted := true } →
        (HandleKeyPress run
          (runKeys run (SetOnSubmit (NewSelectionOverlay title options) (some c)) w msgs).1
          (runKeys run (SetOnSubmit (NewSelectionOverlay title options) (some c)) w msgs).2
          enter).state.Submitted = true ∧
        (HandleKeyPress run
          (runKeys run (SetOnSubmit (NewSelectionOverlay title options) (some c)) w msgs).1
          (runKeys run (SetOnSubmit (NewSelectionOverlay title options) (some c)) w msgs).2
          enter).outcome = .returned true) := by
  obtain ⟨hrun, hlen, hout⟩ := runKeys_moveDown run msgs
    (SetOnSubmit (NewSelectionOverlay title options) (some c)) w hdown
  have hidx : (if (0 : Int) < (options.length : Int) - 1 then
      min ((0 : Int) + (msgs.length : Int)) ((options.length : Int) - 1) else 0)
      = min (msgs.length : Int) ((options.length : Int) - 1) := by
    split_ifs <;> omega
  have hstate : runKeys run (SetOnSubmit (NewSelectionOverlay title options) (some c)) w msgs =
      ({ SetOnSubmit (NewSelectionOverlay title options) (some c) with
          SelectedIndex := min (msgs.length : Int) ((options.length : Int) - 1) }, w) := by
    rw [hrun]
    simp only [SetOnSubmit, NewSelectionOverlay]
    rw [hidx]
  have h0 : 0 ≤ min (msgs.length : Int) ((options.length : Int) - 1) := by omega
  have h1 : min (msgs.length : Int) ((options.length : Int) - 1) < (options.length : Int) := by
    omega
  have ht : (min (msgs.length : Int) ((options.length : Int) - 1)).toNat
      = min msgs.length (options.length - 1) := by omega
  obtain ⟨v, hv, hget⟩ := goIndex_of_valid options _ h0 h1
  rw [ht] at hget
  obtain ⟨hst, hwo, hcalls, hend⟩ := HandleKeyPress_enter_callback run
    { SetOnSubmit (NewSelectionOverlay title options) (some c) with
      SelectedIndex := min (msgs.length : Int) ((options.length : Int) - 1) } w enter c v
    henter rfl hv
  refine ⟨hlen, hout, by rw [hstate], hstate, v, hget, ?_⟩
  rw [hstate]
  refine ⟨hcalls, hst, hwo, ?_⟩
  intro hret hsame
  rw [hst, hend]
  exact ⟨by rw [hsame], by rw [if_pos hret]⟩

theorem move_down_run_then_confirm_witness :
    1 ≤ ["A", "B", "C"].length ∧ (∀ m ∈ [downKey, jKey, downKey], isMoveDown m) ∧
    enterKey.Typ = .KeyEnter ∧
    (runKeys demoRun (SetOnSubmit (NewSelectionOverlay "Pick" ["A", "B", "C"])
      (some DemoCallback.log)) [] [downKey, jKey, downKey]).1.SelectedIndex = 2 ∧
    (HandleKeyPress demoRun
      (runKeys demoRun (SetOnSubmit (NewSelectionOverlay "Pick" ["A", "B", "C"])
        (some DemoCallback.log)) [] [downKey, jKey, downKey]).1 [] enterKey).calls = ["C"] ∧
    (HandleKeyPress demoRun
      (runKeys demoRun (SetOnSubmit (NewSelectionOverlay "Pick" ["A", "B", "C"])
        (some DemoCallback.log)) [] [downKey, jKey, downKey]).1 []
      enterKey).state.Submitted = true ∧
    (∃ selected, ["A", "B", "C"][min [downKey, jKey, downKey].length
        (["A", "B", "C"].length - 1)]? = some selected ∧
      (HandleKeyPress demoRun
        (runKeys demoRun (SetOnSubmit (NewSelectionOverlay "Pick" ["A", "B", "C"])
          (some DemoCallback.log)) [] [downKey, jKey, downKey]).1
        (runKeys demoRun (SetOnSubmit (NewSelectionOverlay "Pick" ["A", "B", "C"])
          (some DemoCallback.log)) [] [downKey, jKey, downKey]).2
        enterKey).calls = [selected]) :=
  have hdown : ∀ m ∈ [downKey, jKey, downKey], isMoveDown m := by
    simp [isMoveDown, downKey, jKey]
  have h := move_down_run_then_confirm demoRun "Pick" ["A", "B", "C"] DemoCallback.log []
    [downKey, jKey, downKey] enterKey (by simp) hdown rfl
  ⟨by simp, hdown, rfl,
    by simp [runKeys, HandleKeyPress, SetOnSubmit, NewSelectionOverlay, downKey, jKey],
    by simp [runKeys, HandleKeyPress, demoRun, SetOnSubmit, NewSelectionOverlay, downKey, jKey,
      enterKey, goIndex],
    by simp [runKeys, HandleKeyPress, demoRun, SetOnSubmit, NewSelectionOverlay, downKey, jKey,
      enterKey, goIndex],
    h.2.2.2.2.imp fun _ hs => ⟨hs.1, hs.2.1⟩⟩

/-! ## After the close signal -/

/-- C17, as stated, fails: the overlay built for A, B, C is submitted by Enter
with the cursor on A; a Down delivered afterwards moves the cursor to B, a
second Enter invokes the callback again, and an Esc sets `Canceled`. -/
theorem terminal_overlay_not_inert :
    submittedOverlay.Submitted = true ∧ submittedOverlay.Canceled = false ∧
    submittedOverlay.SelectedIndex = 0 ∧
    (HandleKeyPress demoRun submittedOverlay ["A"] downKey).state.SelectedIndex = 1 ∧
    (HandleKeyPress demoRun submittedOverlay ["A"] enterKey).calls = ["A"] ∧
    (HandleKeyPress demoRun submittedOverlay ["A"] escKey).state.Canceled = true := by
  simp [submittedOverlay, runKeys, HandleKeyPress, demoRun, SetOnSubmit, NewSelectionOverlay,
    enterKey, downKey, escKey, goIndex]

/-- C17, amended: on a terminal overlay (`Submitted` or `Canceled` true), and
leaving aside an Enter that arrives while a callback is attached and
`SelectedIndex` is out of range, a further key event is inert (`SelectedIndex`,
`Submitted` and `Canceled` are unchanged and the callback is not invoked)
exactly when it is a move-up at an index not above 0, a move-down at an index
not below `len(Options) - 1`, an Enter on a submitted overlay with no callback
attached, an Esc on a canceled overlay, or a key the handler does not
recognise. -/
theorem terminal_event_inert_iff {C W : Type} (run : Callbacks C W) (s : Overlay C) (w : W)
    (msg : KeyMsg) (_hterm : s.Submitted = true ∨ s.Canceled = true)
    (hsafe : msg.Typ = .KeyEnter → s.OnSubmit ≠ none →
      0 ≤ s.SelectedIndex ∧ s.SelectedIndex < (s.Options.length : Int)) :
    ((HandleKeyPress run s w msg).state.SelectedIndex = s.SelectedIndex ∧
      (HandleKeyPress run s w msg).state.Submitted = s.Submitted ∧
      (HandleKeyPress run s w msg).state.Canceled = s.Canceled ∧
      (HandleKeyPress run s w msg).calls = []) ↔
    ((msg.Typ = .KeyUp ∧ s.SelectedIndex ≤ 0) ∨
      (msg.Typ = .KeyDown ∧ (s.Options.length : Int) - 1 ≤ s.SelectedIndex) ∨
      (msg.Typ = .KeyEnter ∧ s.Submitted = true ∧ s.OnSubmit = none) ∨
      (msg.Typ = .KeyEsc ∧ s.Canceled = true) ∨
      (msg.Typ ≠ .KeyUp ∧ msg.Typ ≠ .KeyDown ∧ msg.Typ ≠ .KeyEnter ∧ msg.Typ ≠ .KeyEsc ∧
        ((msg.Str = "j" ∧ (s.Options.length : Int) - 1 ≤ s.SelectedIndex) ∨
          (msg.Str = "k" ∧ s.SelectedIndex ≤ 0) ∨
          (msg.Str ≠ "j" ∧ msg.Str ≠ "k")))) := by
  obtain ⟨typ, str⟩ := msg
  have hjk : ("k" : String) ≠ "j" := by decide
  cases typ
  case KeyUp =>
    by_cases h : s.SelectedIndex > 0
    · simp [HandleKeyPress, h]
    · simp [HandleKeyPress, h]; omega
  case KeyDown =>
    by_cases h : s.SelectedIndex < (s.Options.length : Int) - 1
    · simp [HandleKeyPress, h]; omega
    · simp [HandleKeyPress, h]; omega
  case KeyEnter =>
    cases hcb : s.OnSubmit with
    | none => simp [HandleKeyPress, hcb]
    | some c =>
      obtain ⟨h0, h1⟩ := hsafe rfl (by simp [hcb])
      obtain ⟨v, hv, -⟩ := goIndex_of_valid s.Options s.SelectedIndex h0 h1
      obtain ⟨-, -, hcalls, -⟩ :=
        HandleKeyPress_enter_callback run s w ⟨.KeyEnter, str⟩ c v rfl hcb hv
      simp [hcalls]
  case KeyEsc => simp [HandleKeyPress]
  all_goals
    by_cases hj : str = "j"
    · by_cases h : s.SelectedIndex < (s.Options.length : Int) - 1
      · simp [HandleKeyPress, hj, h]; omega
      · simp [HandleKeyPress, hj, h]; omega
    · by_cases hk : str = "k"
      · by_cases h : s.SelectedIndex > 0
        · simp [HandleKeyPress, hk, hjk, h]
        · simp [HandleKeyPress, hk, hjk, h]; omega
      · simp [HandleKeyPress, hj, hk]

theorem terminal_event_inert_iff_witness :
    (submittedOverlay.Submitted = true ∨ submittedOverlay.Canceled = true) ∧
    (upKey.Typ = .KeyEnter → submittedOverlay.OnSubmit ≠ none →
      0 ≤ submittedOverlay.SelectedIndex ∧
      submittedOverlay.SelectedIndex < (submittedOverlay.Options.length : Int)) ∧
    ((HandleKeyPress demoRun submittedOverlay ["A"] upKey).state.SelectedIndex
        = submittedOverlay.SelectedIndex ∧
      (HandleKeyPress demoRun submittedOverlay ["A"] upKey).state.Submitted
        = submittedOverlay.Submitted ∧
      (HandleKeyPress demoRun submittedOverlay ["A"] upKey).state.Canceled
        = submittedOverlay.Canceled ∧
      (HandleKeyPress demoRun submittedOverlay ["A"] upKey).calls = []) :=
  have hterm : submittedOverlay.Submitted = true ∨ submittedOverlay.Canceled = true := by
    simp [submittedOverlay, runKeys, HandleKeyPress, demoRun, SetOnSubmit, NewSelectionOverlay,
      enterKey, goIndex]
  have hidx : submittedOverlay.SelectedIndex ≤ 0 := by
    simp [submittedOverlay, runKeys, HandleKeyPress, demoRun, SetOnSubmit, NewSelectionOverlay,
      enterKey, goIndex]
  have hsafe : upKey.Typ = .KeyEnter → submittedOverlay.OnSubmit ≠ none →
      0 ≤ submittedOverlay.SelectedIndex ∧
      submittedOverlay.SelectedIndex < (submittedOverlay.Options.length : Int) := by
    intro h
    cases h
  ⟨hterm, hsafe, (terminal_event_inert_iff demoRun submittedOverlay ["A"] upKey hterm hsafe).mpr
    (Or.inl ⟨rfl, hidx⟩)⟩

/-! ## The size hint -/

/-- C19: on the overlay built for a non-empty option list with a callback
attached that does not modify the overlay, after any sequence of key messages
the next call of `HandleKeyPress` makes no slice read out of range, whatever the
key.  When that key is Enter, the read `Options[SelectedIndex]` succeeds, and the
callback is invoked once with the value that `GetSelectedOption` returned just
before the event.  No call along any sequence is stopped by the runtime; when
the callback also returns from every call, every call returns and every message
is handled. -/
theorem confirm_read_in_range {C W : Type} (run : Callbacks C W) (title : String)
    (options : List String) (c : C) (w : W) (pre : List KeyMsg) (msg : KeyMsg)
    (hne : options ≠ []) (hleave : leavesOverlay run c) :
    (HandleKeyPress run
      (runKeys run (SetOnSubmit (NewSelectionOverlay title options) (some c)) w pre).1
      (runKeys run (SetOnSubmit (NewSelectionOverlay title options) (some c)) w pre).2
      msg).outcome ≠ .indexOutOfRange ∧
    (msg.Typ = .KeyEnter → ∃ v,
      GetSelectedOption
        (runKeys run (SetOnSubmit (NewSelectionOverlay title options) (some c)) w pre).1
        = some v ∧
      goIndex
        (runKeys run (SetOnSubmit (NewSelectionOverlay title options) (some c)) w pre).1.Options
        (runKeys run (SetOnSubmit (NewSelectionOverlay title options) (some c)) w
          pre).1.SelectedIndex = some v ∧
      (HandleKeyPress run
        (runKeys run (SetOnSubmit (NewSelectionOverlay title options) (some c)) w pre).1
        (runKeys run (SetOnSubmit (NewSelectionOverlay title options) (some c)) w pre).2
        msg).calls = [v] ∧
      (HandleKeyPress run
        (runKeys run (SetOnSubmit (NewSelectionOverlay title options) (some c)) w pre).1
        (runKeys run (SetOnSubmit (NewSelectionOverlay title options) (some c)) w pre).2
        msg).world =
        (run c v
          { (runKeys run (SetOnSubmit (NewSelectionOverlay title options) (some c)) w pre).1
            with Submitted := true }
          (runKeys run (SetOnSubmit (NewSelectionOverlay title options) (some c)) w
            pre).2).world) ∧
    (∀ r ∈ deliver run (SetOnSubmit (NewSelectionOverlay title options) (some c)) w
        (pre ++ [msg]), r.outcome ≠ .indexOutOfRange) ∧
    (alwaysReturns run c →
      (∃ b, (HandleKeyPress run
        (runKeys run (SetOnSubmit (NewSelectionOverlay title options) (some c)) w pre).1
        (runKeys run (SetOnSubmit (NewSelectionOverlay title options) (some c)) w pre).2
        msg).outcome = .returned b) ∧
      (deliver run (SetOnSubmit (NewSelectionOverlay title options) (some c)) w
        (pre ++ [msg])).length = (pre ++ [msg]).length ∧
      ∀ r ∈ deliver run (SetOnSubmit (NewSelectionOverlay title options) (some c)) w
          (pre ++ [msg]), ∃ b, r.outcome = .returned b) := by
  have h0 : indexValid (SetOnSubmit (NewSelectionOverlay title options) (some c)) := by
    have : 0 < options.length := List.length_pos.mpr hne
    simp only [indexValid, SetOnSubmit, NewSelectionOverlay]
    omega
  have hq : ∀ c', some c = some c' → leavesOverlay run c' := by
    intro c' hc
    cases hc
    exact hleave
  obtain ⟨-, ⟨hv, hcb⟩, -⟩ := deliver_indexValid run (some c) hq pre _ w h0 rfl
  obtain ⟨hall, -, hfull⟩ := deliver_indexValid run (some c) hq (pre ++ [msg]) _ w h0 rfl
  have hq1 : ∀ c',
      (runKeys run (SetOnSubmit (NewSelectionOverlay title options) (some c)) w pre).1.OnSubmit
        = some c' → leavesOverlay run c' := by
    intro c' hc
    exact hq c' (hcb.symm.trans hc)
  obtain ⟨-, -, hno, hret⟩ := HandleKeyPress_indexValid run _
    (runKeys run (SetOnSubmit (NewSelectionOverlay title options) (some c)) w pre).2 msg hv hq1
  refine ⟨hno, ?_, fun r hr => (hall r hr).2, ?_⟩
  · intro henter
    obtain ⟨v, hgo, -⟩ := goIndex_of_valid _ _ hv.1 hv.2
    obtain ⟨-, hwo, hcalls, -⟩ := HandleKeyPress_enter_callback run _
      (runKeys run (SetOnSubmit (NewSelectionOverlay title options) (some c)) w pre).2
      msg c v henter hcb hgo
    refine ⟨v, ?_, hgo, hcalls, hwo⟩
    simp only [GetSelectedOption, ge_iff_le, hv.1, hv.2, and_self, ↓reduceIte, hgo]
  · intro hr
    have hr1 : ∀ c', some c = some c' → alwaysReturns run c' := by
      intro c' hc
      cases hc
      exact hr
    exact ⟨hret (fun c' hc => hr1 c' (hcb.symm.trans hc)), hfull hr1⟩

theorem confirm_read_in_range_witness :
    ["A", "B", "C"] ≠ [] ∧ leavesOverlay demoRun DemoCallback.log ∧
    GetSelectedOption (runKeys demoRun (SetOnSubmit (NewSelectionOverlay "Pick" ["A", "B", "C"])
      (some DemoCallback.log)) [] [downKey, xKey, escKey, kKey, jKey]).1 = some "B" ∧
    (HandleKeyPress demoRun
      (runKeys demoRun (SetOnSubmit (NewSelectionOverlay "Pick" ["A", "B", "C"])
        (some DemoCallback.log)) [] [downKey, xKey, escKey, kKey, jKey]).1
      (runKeys demoRun (SetOnSubmit (NewSelectionOverlay "Pick" ["A", "B", "C"])
        (some DemoCallback.log)) [] [downKey, xKey, escKey, kKey, jKey]).2
      enterKey).calls = ["B"] ∧
    (HandleKeyPress demoRun
      (runKeys demoRun (SetOnSubmit (NewSelectionOverlay "Pick" ["A", "B", "C"])
        (some DemoCallback.log)) [] [downKey, xKey, escKey, kKey, jKey]).1
      (runKeys demoRun (SetOnSubmit (NewSelectionOverlay "Pick" ["A", "B", "C"])
        (some DemoCallback.log)) [] [downKey, xKey, escKey, kKey, jKey]).2
      enterKey).outcome ≠ .indexOutOfRange :=
  have hleave : leavesOverlay demoRun DemoCallback.log := fun _ _ _ => rfl
  ⟨by simp, hleave,
    by simp [GetSelectedOption, runKeys, HandleKeyPress, SetOnSubmit, NewSelectionOverlay,
      downKey, xKey, escKey, kKey, jKey, goIndex],
    by simp [runKeys, HandleKeyPress, demoRun, SetOnSubmit, NewSelectionOverlay,
      downKey, xKey, escKey, kKey, jKey, enterKey, goIndex],
    (confirm_read_in_range demoRun "Pick" ["A", "B", "C"] DemoCallback.log []
      [downKey, xKey, escKey, kKey, jKey] enterKey (by simp) hleave).1⟩

/-! ## The empty option list -/

theorem HandleKeyPress_empty {C W : Type} (run : Callbacks C W) (s : Overlay C) (w : W)
    (msg : KeyMsg) (hopt : s.Options = []) (hidx : s.SelectedIndex = 0) :
    (HandleKeyPress run s w msg).state.Options = [] ∧
    (HandleKeyPress run s w msg).state.SelectedIndex = 0 ∧
    (HandleKeyPress run s w msg).state.OnSubmit = s.OnSubmit ∧
    (s.OnSubmit = none → ∃ b, (HandleKeyPress run s w msg).outcome = .returned b) := by
  unfold HandleKeyPress
  split
  · simp [hopt, hidx]
  · simp [hopt, hidx]
  · cases hcb : s.OnSubmit with
    | none => simp [hopt, hidx]
    | some f => simp [hopt, hidx, goIndex_nil]
  · simp [hopt, hidx]
  · split
    · simp [hopt, hidx]
    · split
      · simp [hopt, hidx]
      · simp [hopt, hidx]

theorem deliver_empty {C W : Type} (run : Callbacks C W) (msgs : List KeyMsg) :
    ∀ (s : Overlay C) (w : W), s.Options = [] → s.SelectedIndex = 0 →
      (∀ r ∈ deliver run s w msgs, r.state.SelectedIndex = 0) ∧
      (runKeys run s w msgs).1.SelectedIndex = 0 ∧
      (s.OnSubmit = none → (deliver run s w msgs).length = msgs.length) := by
  induction msgs with
  | nil => intro s w _ hidx; simp [deliver, runKeys, hidx]
  | cons msg rest ih =>
    intro s w hopt hidx
    obtain ⟨ho, hi, hcb, hret⟩ := HandleKeyPress_empty run s w msg hopt hidx
    obtain ⟨hall, hrun, hlen⟩ :=
      ih (HandleKeyPress run s w msg).state (HandleKeyPress run s w msg).world ho hi
    cases hout : (HandleKeyPress run s w msg).outcome with
    | returned b =>
      refine ⟨?_, ?_, ?_⟩
      · simp only [deliver, hout, List.mem_cons]
        rintro r (rfl | hr)
        · exact hi
        · exact hall r hr
      · simp only [runKeys, hout]
        exact hrun
      · intro hnone
        simp only [deliver, hout, List.length_cons]
        rw [hlen (hcb.trans hnone)]
    | _ =>
      refine ⟨?_, ?_, ?_⟩
      · simp only [deliver, hout, List.mem_singleton]
        rintro r rfl
        exact hi
      · simp only [runKeys, hout]
        exact hi
      · intro hnone
        obtain ⟨b, hb⟩ := hret hnone
        rw [hb] at hout
        cases hout

/-- C20: on the overlay built by `NewSelectionOverlay` with an empty option
list, with or without a callback attached afterwards, every state reached along
any sequence of key messages has `SelectedIndex = 0`: a move-down does not
increment because `0 < len(Options) - 1 = -1` is false, and a move-up does not
decrement.  On the overlay as built (no callback) every message of the sequence
is handled. -/
theorem empty_list_index_stays_zero {C W : Type} (run : Callbacks C W) (title : String)
    (cb : Option C) (w : W) (msgs : List KeyMsg) :
    (∀ r ∈ deliver run (SetOnSubmit (NewSelectionOverlay title []) cb) w msgs,
      r.state.SelectedIndex = 0) ∧
    (runKeys run (SetOnSubmit (NewSelectionOverlay title []) cb) w msgs).1.SelectedIndex = 0 ∧
    (∀ r ∈ deliver run (NewSelectionOverlay title [] : Overlay C) w msgs,
      r.state.SelectedIndex = 0) ∧
    (deliver run (NewSelectionOverlay title [] : Overlay C) w msgs).length = msgs.length ∧
    ¬ ((0 : Int) < (([] : List String).length : Int) - 1) := by
  obtain ⟨h1, h2, -⟩ :=
    deliver_empty run msgs (SetOnSubmit (NewSelectionOverlay title []) cb) w rfl rfl
  obtain ⟨h3, -, h4⟩ := deliver_empty run msgs (NewSelectionOverlay title [] : Overlay C) w rfl rfl
  exact ⟨h1, h2, h3, h4 rfl, by simp⟩

end SelectionOverlay
